import Mathlib

/-
  Verification development for the 1key-tg-bot repository.
  Shallow embedding of: config.py (Settings defaults), models.py
  (VerificationStep and the currentStep validator), onekey_client.py
  (retry wrapper, batch size guard, duplicate registry, response status
  handling, verification id extraction), csrf_manager.py (token cache),
  stats_storage.py (in-memory stats), and bot.py (polling loop and the
  submission path of process_verification).
-/

/- Settings defaults, from config.py. -/

def max_batch_size : Nat := 5

def max_retries : Nat := 3

def retry_delay : ℚ := 1

def retry_backoff : ℚ := 2

def poll_interval : ℚ := 2

def poll_max_attempts : Nat := 90

def csrf_refresh_interval : Int := 300

def csrf_preemptive_refresh : Int := 60

/- Data model, from models.py. -/

inductive VerificationStep where
  | pending
  | success
  | error
  | cancelled
  | unknown
deriving DecidableEq, BEq, Repr

/-- Enum lookup, embedding the Python expression VerificationStep(v) in
models.py: returns the member whose value equals the string, else none
(Python raises ValueError, caught by the validator). -/
def stepOfString (s : String) : Option VerificationStep :=
  if s = "pending" then some VerificationStep.pending
  else if s = "success" then some VerificationStep.success
  else if s = "error" then some VerificationStep.error
  else if s = "cancelled" then some VerificationStep.cancelled
  else if s = "unknown" then some VerificationStep.unknown
  else none

/-- Embeds VerificationResult.validate_step (models.py lines 37-47) on
string or null field values: Python None and the empty string hit the
`if not v` branch and map to unknown; an unrecognized string raises
ValueError inside the try and maps to unknown. -/
def validate_step (v : Option String) : VerificationStep :=
  match v with
  | none => VerificationStep.unknown
  | some s =>
    if s = "" then VerificationStep.unknown
    else (stepOfString s).getD VerificationStep.unknown

/-- Embeds the decoding of one streamed record's currentStep field in
OneKeyClient.batch_verify (onekey_client.py line 187): the outer Option is
field presence, the inner Option distinguishes a JSON null from a string.
An absent field defaults to the string "pending" via data.get("currentStep",
"pending") before the validator runs. -/
def decode_current_step (field : Option (Option String)) : VerificationStep :=
  validate_step (field.getD (some "pending"))

/- Retry executor, from OneKeyClient._retry_request (onekey_client.py 94-115). -/

inductive ReqOutcome where
  | success
  | failure (statusCode : Option Nat)
deriving DecidableEq

/-- Embeds the non-retryable status test `status_code in (400, 401, 403, 404)`;
a failure with no response (httpx.RequestError) carries no status and is
retryable. -/
def nonRetryableStatus (st : Option Nat) : Bool :=
  st == some 400 || st == some 401 || st == some 403 || st == some 404

/-- Embeds the retry loop body of _retry_request: `attempt` is the index of
the current invocation, `remaining` the number of attempts still allowed
after it (initially max_retries), `delay` the current sleep duration.
Returns the outcome together with the list of sleeps performed, in order.
At the final attempt the code falls out of the loop and re-raises the last
error, which is the current failure. -/
def retry_go (behavior : Nat → ReqOutcome) (backoff : ℚ) :
    Nat → ℚ → Nat → Except (Option Nat) Unit × List ℚ
  | attempt, delay, remaining =>
    match behavior attempt, remaining with
    | ReqOutcome.success, _ => (Except.ok (), [])
    | ReqOutcome.failure st, 0 => (Except.error st, [])
    | ReqOutcome.failure st, r + 1 =>
      if nonRetryableStatus st then (Except.error st, [])
      else
        let rest := retry_go behavior backoff (attempt + 1) (delay * backoff) r
        (rest.1, delay :: rest.2)

/-- Embeds OneKeyClient._retry_request: the loop `for attempt in
range(max_retries + 1)` starting with delay = base, multiplying the delay by
the backoff after each sleep. The behavior function gives the outcome of the
invocation at each attempt index. -/
def retry_request (behavior : Nat → ReqOutcome) (maxRetries : Nat)
    (base backoff : ℚ) : Except (Option Nat) Unit × List ℚ :=
  retry_go behavior backoff 0 base maxRetries

/- Batch size guard, from OneKeyClient.batch_verify (onekey_client.py 146-170). -/

inductive ClientEffect where
  | acquireSubmitPermit
  | fetchCredential
  | netPost
deriving DecidableEq

/-- Embeds the entry of batch_verify up to the streaming POST, as the ordered
list of effects it performs: the `len(verification_ids) > max_batch_size`
check raises ValueError first; only past it does the code acquire the request
semaphore, fetch the CSRF credential and issue the network call. -/
def batch_verify_submit (maxBatch : Nat) (ids : List String) :
    Option String × List ClientEffect :=
  if ids.length > maxBatch then (some "batch size limit exceeded", [])
  else (none, [ClientEffect.acquireSubmitPermit, ClientEffect.fetchCredential,
               ClientEffect.netPost])

/- CSRF credential manager, from csrf_manager.py. -/

structure CSRFState where
  token : Option String
  cookies : List (String × String)
  lastRefresh : Option Int
deriving DecidableEq

/-- Embeds CSRFTokenManager.invalidate (csrf_manager.py 142-148): clears the
token, the cookies and the refresh timestamp. -/
def CSRFState.invalidate (_st : CSRFState) : CSRFState :=
  { token := none, cookies := [], lastRefresh := none }

/-- Python string truthiness used by the manager and the bot: None and the
empty string are falsy. -/
def tokenTruthy : Option String → Bool
  | none => false
  | some t => t != ""

/-- Embeds CSRFTokenManager._should_refresh (csrf_manager.py 83-91): stale
when no token or no timestamp, else when the elapsed time reaches
refresh_interval minus the preemptive margin. -/
def should_refresh (now : Int) (st : CSRFState) : Bool :=
  match st.token, st.lastRefresh with
  | some _, some t =>
    decide (csrf_refresh_interval - csrf_preemptive_refresh ≤ now - t)
  | _, _ => true

/-- Embeds CSRFTokenManager.get_token (csrf_manager.py 112-131): the fast
path returns the cached token when it is truthy and not stale; otherwise a
fetch is performed (fetchResult stands for _fetch_csrf_token's return) and
the state is repopulated. The third component records whether a network
fetch happened. -/
def get_token (fetchResult : String × List (String × String)) (now : Int)
    (force : Bool) (st : CSRFState) : String × CSRFState × Bool :=
  if !force && tokenTruthy st.token && !(should_refresh now st) then
    (st.token.getD "", st, false)
  else
    (fetchResult.1, ⟨some fetchResult.1, fetchResult.2, some now⟩, true)

/- Batch response status handling, from batch_verify (onekey_client.py 169-201). -/

structure OneKeyAPIError where
  message : String
  statusCode : Option Nat
  retryable : Bool
deriving DecidableEq

/-- Success range of httpx raise_for_status: 2xx responses. -/
def isSuccessStatus (s : Nat) : Bool :=
  decide (200 ≤ s) && decide (s < 300)

/-- Embeds the response status handling of batch_verify: a 403 invalidates
the CSRF credential and raises OneKeyAPIError("CSRF token expired", 403,
retryable=True); any other non-success status makes raise_for_status throw,
caught and re-raised as OneKeyAPIError carrying that status with retryable
left at its default False; a success status proceeds with no error. -/
def handle_batch_response_status (cred : CSRFState) (status : Nat) :
    CSRFState × Option OneKeyAPIError :=
  if status = 403 then
    (cred.invalidate, some ⟨"CSRF token expired", some 403, true⟩)
  else if isSuccessStatus status then (cred, none)
  else (cred, some ⟨"HTTP error", some status, false⟩)

/- Single-flight registry, from OneKeyClient (onekey_client.py 117-126),
   and the submission path of process_verification (bot.py 225-296). -/

/-- Embeds OneKeyClient.check_duplicate: under the pending lock, reports true
if the id is already in flight, otherwise inserts it and reports false. -/
def check_duplicate (pending : List String) (vid : String) : Bool × List String :=
  if pending.contains vid then (true, pending) else (false, vid :: pending)

/-- Embeds OneKeyClient.remove_pending: discards the id from the in-flight
set (a no-op when absent). -/
def remove_pending (pending : List String) (vid : String) : List String :=
  pending.filter (fun x => x != vid)

structure ProcessRun where
  registry : List String
  submitted : List String
  duplicatesReported : List String
deriving DecidableEq

/-- Embeds the registry-visible behavior of process_verification (bot.py
225-296): the function passes its verification_ids argument to batch_verify
unchanged, contains no call to check_duplicate or remove_pending on any
path, and reports no duplicates; the in-flight registry is untouched. -/
def process_verification_run (registry : List String) (ids : List String) :
    ProcessRun :=
  { registry := registry, submitted := ids, duplicatesReported := [] }

/- Polling loop, from process_verification (bot.py 258-287). -/

inductive PollReply where
  | ok (step : VerificationStep) (checkToken : Option String)
  | exn

/-- Embeds one round of the bot's polling loop body: for each (vid, token)
entry, check_status is consulted; an exception removes the entry, a
non-pending step removes it, a pending step with a truthy fresh token
replaces the token, and a pending step without one keeps the entry as is. -/
def pollRound (reply : String → PollReply) (pending : List (String × String)) :
    List (String × String) :=
  pending.filterMap fun e =>
    match reply e.2 with
    | PollReply.exn => none
    | PollReply.ok step tok =>
      if step != VerificationStep.pending then none
      else if tokenTruthy tok then some (e.1, tok.getD e.2)
      else some e

/-- Iterates the polling loop: the working set after n rounds, with the
round-indexed oracle standing for the upstream check-status responses. The
loop `while pending_tokens:` exits after n rounds exactly when this set
becomes empty. -/
def pollIter (oracle : Nat → String → PollReply)
    (start : List (String × String)) : Nat → List (String × String)
  | 0 => start
  | n + 1 => pollRound (oracle n) (pollIter oracle start n)

/-- An upstream that answers every status check with currentStep pending and
returns the same continuation token. -/
def alwaysPendingReply : Nat → String → PollReply :=
  fun _ tok => PollReply.ok VerificationStep.pending (some tok)

def bot_poll_start : List (String × String) :=
  [("6931007a35dfed1a6931adac", "tok0")]

/- In-memory stats store, from MemoryStatsStorage (stats_storage.py 40-68). -/

structure MemoryStats where
  totals : Int → Int
  submissions : List (Int × Int × Int)

def initStats : MemoryStats := ⟨fun _ => 0, []⟩

/-- Embeds MemoryStatsStorage.record_submission: adds the count to the
all-time counter of the user, appends (user, timestamp, count) to the log
and prunes log entries older than 24 hours (86400 seconds). -/
def record_submission (st : MemoryStats) (userId now count : Int) :
    MemoryStats :=
  { totals := fun u => if u = userId then st.totals u + count else st.totals u
  , submissions :=
      (st.submissions ++ [(userId, now, count)]).filter
        (fun s => decide (now - 86400 < s.2.1)) }

/-- Embeds MemoryStatsStorage.get_user_stats: the pair (total, last_24h)
reported for the user, the second component summing the logged counts of
that user within the trailing 24-hour window. -/
def get_user_stats (st : MemoryStats) (userId now : Int) : Int × Int :=
  ( st.totals userId
  , ((st.submissions.filter
        (fun s => s.1 == userId && decide (now - 86400 < s.2.1))).map
        (fun s => s.2.2)).sum )

/-- Runs a sequence of record_submission operations from the empty store;
each element is (user, timestamp, count). -/
def run_records (ops : List (Int × Int × Int)) : MemoryStats :=
  ops.foldl (fun st op => record_submission st op.1 op.2.1 op.2.2) initStats

/- Identifier parser, from OneKeyClient.extract_verification_id
   (onekey_client.py 128-144). Strings are modeled as lists of characters;
   each Python regex pattern is embedded as a leftmost-match scanner with
   the semantics re.search/re.match give it (IGNORECASE throughout, and a
   dollar anchor that also matches just before a newline that ends the
   string). -/

def lowerHexDigits : List Char := "0123456789abcdef".data

def upperHexLetters : List Char := "ABCDEF".data

def isLowerHexDigit (c : Char) : Bool := lowerHexDigits.contains c

/-- The character class `[a-f0-9]` under re.IGNORECASE. -/
def isHexDigitCI (c : Char) : Bool := (lowerHexDigits ++ upperHexLetters).contains c

/-- Matches exactly n characters of the class `[a-f0-9]` (IGNORECASE) at the
head of the list, returning them; fails on a shorter or non-hex head. -/
def takeHexRun : Nat → List Char → Option (List Char)
  | 0, _ => some []
  | _ + 1, [] => none
  | n + 1, c :: rest =>
    if isHexDigitCI c then (takeHexRun n rest).map (fun r => c :: r) else none

def take24Hex (l : List Char) : Option (List Char) := takeHexRun 24 l

/-- Embeds `re.match(r'^[a-f0-9]{24}$', s, re.IGNORECASE)`: 24 hex
characters from the start, then the dollar anchor, which matches at the end
of the string or just before a newline that ends it. -/
def bareMatch (l : List Char) : Bool :=
  match take24Hex l with
  | some _ => decide (l.drop 24 = [] ∨ l.drop 24 = ['\n'])
  | none => false

/-- The `id=` tail of the pattern `[?&]id=([a-f0-9]{24})` (IGNORECASE on the
literal as well), applied right after the marker character. -/
def idTailAt : List Char → Option (List Char)
  | c1 :: c2 :: c3 :: rest =>
    if c1.toLower = 'i' ∧ c2.toLower = 'd' ∧ c3 = '=' then take24Hex rest
    else none
  | _ => none

/-- One anchored attempt of `[?&]id=([a-f0-9]{24})` at the current position. -/
def idParamAt : List Char → Option (List Char)
  | c :: rest => if c = '?' ∨ c = '&' then idTailAt rest else none
  | [] => none

/-- Leftmost search of `[?&]id=([a-f0-9]{24})`, as re.search performs it. -/
def searchIdParam : List Char → Option (List Char)
  | [] => none
  | c :: rest =>
    match idParamAt (c :: rest) with
    | some r => some r
    | none => searchIdParam rest

/-- The `(?:[?/]|$)` tail of the path-segment pattern: a question mark or a
slash, or the dollar anchor (end of string, or just before a final newline). -/
def pathSegEndOk : List Char → Bool
  | [] => true
  | ['\n'] => true
  | c :: _ => c == '?' || c == '/'

/-- One anchored attempt of `/([a-f0-9]{24})(?:[?/]|$)` at the current
position. -/
def pathSegAt : List Char → Option (List Char)
  | c :: rest =>
    if c = '/' then
      match take24Hex rest with
      | some r => if pathSegEndOk (rest.drop 24) then some r else none
      | none => none
    else none
  | [] => none

/-- Leftmost search of `/([a-f0-9]{24})(?:[?/]|$)`. -/
def searchPathSeg : List Char → Option (List Char)
  | [] => none
  | c :: rest =>
    match pathSegAt (c :: rest) with
    | some r => some r
    | none => searchPathSeg rest

/-- Leftmost search of the fallback pattern `([a-f0-9]{24})`. -/
def searchHex24 : List Char → Option (List Char)
  | [] => none
  | c :: rest =>
    match take24Hex (c :: rest) with
    | some r => some r
    | none => searchHex24 rest

/-- Embeds OneKeyClient.extract_verification_id: the bare-token match first
(returning the whole input lowercased), then the three search patterns in
order, each returning the captured group lowercased; none matching raises
ValueError, embedded as none. -/
def extract_verification_id (l : List Char) : Option (List Char) :=
  if bareMatch l then some (l.map Char.toLower)
  else
    match searchIdParam l with
    | some r => some (r.map Char.toLower)
    | none =>
      match searchPathSeg l with
      | some r => some (r.map Char.toLower)
      | none =>
        match searchHex24 l with
        | some r => some (r.map Char.toLower)
        | none => none

def sampleId : List Char :=
  ['6', '9', '3', '1', '0', '0', '7', 'a', '3', '5', 'd', 'f',
   'e', 'd', '1', 'a', '6', '9', '3', '1', 'a', 'd', 'a', 'c']

def sampleIdUpper : List Char :=
  ['6', '9', '3', '1', '0', '0', '7', 'A', '3', '5', 'D', 'F',
   'E', 'D', '1', 'A', '6', '9', '3', '1', 'A', 'D', 'A', 'C']

def newlineId : List Char := sampleId ++ ['\n']

def urlHostPart : List Char :=
  ['h', 't', 't', 'p', 's', ':', '/', '/', 'h', 'o', 's', 't']

def urlVerifyPart : List Char :=
  urlHostPart ++ ['/', 'v', 'e', 'r', 'i', 'f', 'y']

/- Theorems. -/

lemma pollRound_alwaysPending (n : Nat) (p : List (String × String)) :
    pollRound (alwaysPendingReply n) p = p := by
  induction p with
  | nil => rfl
  | cons a t ih =>
    have hne : (VerificationStep.pending != VerificationStep.pending) = false := by
      decide
    simp only [pollRound] at ih ⊢
    rw [List.filterMap_cons]
    simp [alwaysPendingReply, tokenTruthy, hne, ih]

/-- C1: the polling phase of process_verification (bot.py 258-287) is the
loop `while pending_tokens`, which exits only when the working set empties;
against an upstream that keeps answering pending, the working set equals
its initial value after every number of rounds, in particular it is still
nonempty when poll_max_attempts (the configured attempt budget) rounds have
elapsed, so the loop does not stop there and no timeout is reported. -/
theorem poll_loop_never_exhausts :
    (∀ n, pollIter alwaysPendingReply bot_poll_start n = bot_poll_start) ∧
    pollIter alwaysPendingReply bot_poll_start poll_max_attempts ≠ [] := by
  have h : ∀ n, pollIter alwaysPendingReply bot_poll_start n = bot_poll_start := by
    intro n
    induction n with
    | zero => rfl
    | succ n ih =>
      show pollRound (alwaysPendingReply n) (pollIter alwaysPendingReply bot_poll_start n) = _
      rw [ih, pollRound_alwaysPending]
  exact ⟨h, by rw [h]; decide⟩

/-- C2: process_verification submits every identifier of its argument list
without consulting the single-flight registry: with the identifier already
in flight, check_duplicate would report a duplicate, yet the run submits
the identifier anyway, reports no duplicate and leaves the registry
untouched (it is neither acquired nor released on any path). -/
theorem single_flight_not_wired :
    (check_duplicate ["6931007a35dfed1a6931adac"] "6931007a35dfed1a6931adac").1 = true ∧
    process_verification_run ["6931007a35dfed1a6931adac"] ["6931007a35dfed1a6931adac"] =
      { registry := ["6931007a35dfed1a6931adac"]
      , submitted := ["6931007a35dfed1a6931adac"]
      , duplicatesReported := [] } := by
  decide

/-- C3: batch_verify raises its validation error exactly when the id list
exceeds the batch limit, and does so before any effect: the error run
performs no permit acquisition, no credential fetch and no network call,
while a list within the limit raises no validation error and proceeds. -/
theorem batch_verify_size_guard (maxBatch : Nat) (ids : List String) :
    (maxBatch < ids.length →
      batch_verify_submit maxBatch ids = (some "batch size limit exceeded", [])) ∧
    (ids.length ≤ maxBatch →
      batch_verify_submit maxBatch ids =
        (none, [ClientEffect.acquireSubmitPermit, ClientEffect.fetchCredential,
                ClientEffect.netPost])) := by
  constructor
  · intro h
    simp [batch_verify_submit, h]
  · intro h
    simp [batch_verify_submit, Nat.not_lt.mpr h]

def sevenIds : List String := ["a1", "a2", "a3", "a4", "a5", "a6", "a7"]

def threeIds : List String := ["a1", "a2", "a3"]

theorem batch_verify_size_guard_witness :
    batch_verify_submit max_batch_size sevenIds = (some "batch size limit exceeded", []) ∧
    batch_verify_submit max_batch_size threeIds =
      (none, [ClientEffect.acquireSubmitPermit, ClientEffect.fetchCredential,
              ClientEffect.netPost]) :=
  ⟨(batch_verify_size_guard max_batch_size sevenIds).1 (by decide),
   (batch_verify_size_guard max_batch_size threeIds).2 (by decide)⟩

/-- C5 counterexample: a streamed record with no currentStep field decodes
to pending, not to unknown, because batch_verify supplies the default
string "pending" for an absent field before the validator runs. -/
theorem decode_absent_step_counterexample :
    decode_current_step none = VerificationStep.pending ∧
    decode_current_step none ≠ VerificationStep.unknown := by
  decide

/-- C5 amended: decoding the currentStep of a streamed record is total; each
of the four documented values maps to its status, any unrecognized or empty
string value and a null value map to unknown, while an absent field
defaults to pending. -/
theorem decode_current_step_total (s : String) :
    decode_current_step (some (some "pending")) = VerificationStep.pending ∧
    decode_current_step (some (some "success")) = VerificationStep.success ∧
    decode_current_step (some (some "error")) = VerificationStep.error ∧
    decode_current_step (some (some "cancelled")) = VerificationStep.cancelled ∧
    (s ∉ ["pending", "success", "error", "cancelled", "unknown"] →
      decode_current_step (some (some s)) = VerificationStep.unknown) ∧
    decode_current_step (some none) = VerificationStep.unknown ∧
    decode_current_step none = VerificationStep.pending := by
  refine ⟨by decide, by decide, by decide, by decide, ?_, by decide, by decide⟩
  intro hs
  have h1 : s ≠ "pending" := by intro h; exact hs (by simp [h])
  have h2 : s ≠ "success" := by intro h; exact hs (by simp [h])
  have h3 : s ≠ "error" := by intro h; exact hs (by simp [h])
  have h4 : s ≠ "cancelled" := by intro h; exact hs (by simp [h])
  have h5 : s ≠ "unknown" := by intro h; exact hs (by simp [h])
  by_cases he : s = ""
  · simp [decode_current_step, validate_step, he]
  · simp [decode_current_step, validate_step, stepOfString, he, h1, h2, h3, h4, h5]

theorem decode_current_step_total_witness :
    ("mystery" ∉ ["pending", "success", "error", "cancelled", "unknown"]) ∧
    decode_current_step (some (some "mystery")) = VerificationStep.unknown :=
  ⟨by decide, (decode_current_step_total "mystery").2.2.2.2.1 (by decide)⟩

/-- C7: a 403 response to the batch submission invalidates the CSRF
credential and produces the retryable upstream error carrying 403; any
other non-success status leaves the credential alone and produces a
non-retryable upstream error carrying that status. -/
theorem batch_response_status_handling (cred : CSRFState) (status : Nat) :
    handle_batch_response_status cred 403 =
      (cred.invalidate, some ⟨"CSRF token expired", some 403, true⟩) ∧
    (status ≠ 403 → isSuccessStatus status = false →
      handle_batch_response_status cred status =
        (cred, some ⟨"HTTP error", some status, false⟩)) := by
  constructor
  · rfl
  · intro h1 h2
    simp [handle_batch_response_status, h1, h2]

theorem batch_response_status_handling_witness :
    handle_batch_response_status ⟨some "tok", [], some 0⟩ 403 =
      (CSRFState.invalidate ⟨some "tok", [], some 0⟩,
        some ⟨"CSRF token expired", some 403, true⟩) ∧
    handle_batch_response_status ⟨some "tok", [], some 0⟩ 500 =
      (⟨some "tok", [], some 0⟩, some ⟨"HTTP error", some 500, false⟩) :=
  ⟨(batch_response_status_handling ⟨some "tok", [], some 0⟩ 500).1,
   (batch_response_status_handling ⟨some "tok", [], some 0⟩ 500).2
     (by decide) (by decide)⟩

/-- C8: invalidate clears the cached token, the cookie set and the fetch
timestamp, and the next get_token call on the invalidated state never takes
the cached fast path: it performs a fresh fetch and returns its result,
whatever the current time and the force flag. -/
theorem invalidate_forces_fresh_fetch (st : CSRFState)
    (fetched : String × List (String × String)) (now : Int) (force : Bool) :
    (st.invalidate).token = none ∧ (st.invalidate).cookies = [] ∧
    (st.invalidate).lastRefresh = none ∧
    get_token fetched now force st.invalidate =
      (fetched.1, ⟨some fetched.1, fetched.2, some now⟩, true) := by
  refine ⟨rfl, rfl, rfl, ?_⟩
  simp [get_token, CSRFState.invalidate, tokenTruthy]

lemma retry_go_fail_last (behavior : Nat → ReqOutcome) (backoff : ℚ) (a : Nat)
    (delay : ℚ) (st : Option Nat) (h : behavior a = ReqOutcome.failure st) :
    retry_go behavior backoff a delay 0 = (Except.error st, []) := by
  rw [retry_go.eq_def]
  dsimp only
  rw [h]

lemma retry_go_fail_retry (behavior : Nat → ReqOutcome) (backoff : ℚ) (a r : Nat)
    (delay : ℚ) (st : Option Nat) (h : behavior a = ReqOutcome.failure st)
    (hnr : nonRetryableStatus st = false) :
    retry_go behavior backoff a delay (r + 1) =
      ((retry_go behavior backoff (a + 1) (delay * backoff) r).1,
        delay :: (retry_go behavior backoff (a + 1) (delay * backoff) r).2) := by
  rw [retry_go.eq_def]
  dsimp only
  rw [h]
  simp [hnr]

lemma retry_go_fail_nonretryable (behavior : Nat → ReqOutcome) (backoff : ℚ)
    (a r : Nat) (delay : ℚ) (st : Option Nat)
    (h : behavior a = ReqOutcome.failure st) (hnr : nonRetryableStatus st = true) :
    retry_go behavior backoff a delay r = (Except.error st, []) := by
  rw [retry_go.eq_def]
  dsimp only
  rw [h]
  cases r with
  | zero => rfl
  | succ r => simp [hnr]

lemma retry_go_all_fail (behavior : Nat → ReqOutcome) (backoff : ℚ) :
    ∀ (r a : Nat) (delay : ℚ),
      (∀ k, k ≤ r → ∃ st, behavior (a + k) = ReqOutcome.failure st ∧
        nonRetryableStatus st = false) →
      ∃ st, behavior (a + r) = ReqOutcome.failure st ∧
        retry_go behavior backoff a delay r =
          (Except.error st, (List.range r).map (fun n => delay * backoff ^ n)) := by
  intro r
  induction r with
  | zero =>
    intro a delay h
    obtain ⟨st, hst, hnr⟩ := h 0 (Nat.le_refl 0)
    rw [Nat.add_zero] at hst
    refine ⟨st, by rw [Nat.add_zero]; exact hst, ?_⟩
    rw [retry_go_fail_last behavior backoff a delay st hst]
    simp
  | succ r ih =>
    intro a delay h
    obtain ⟨st0, hst0, hnr0⟩ := h 0 (Nat.zero_le _)
    rw [Nat.add_zero] at hst0
    have h' : ∀ k, k ≤ r → ∃ st, behavior ((a + 1) + k) = ReqOutcome.failure st ∧
        nonRetryableStatus st = false := by
      intro k hk
      have hx := h (k + 1) (Nat.succ_le_succ hk)
      have heq : a + (k + 1) = (a + 1) + k := by omega
      rwa [heq] at hx
    obtain ⟨st, hst, heq⟩ := ih (a + 1) (delay * backoff) h'
    have hidx : (a + 1) + r = a + (r + 1) := by omega
    refine ⟨st, by rw [← hidx]; exact hst, ?_⟩
    rw [retry_go_fail_retry behavior backoff a r delay st0 hst0 hnr0, heq]
    have hfun : ((fun n => delay * backoff ^ n) ∘ Nat.succ) =
        (fun n => delay * backoff * backoff ^ n) := by
      funext n
      simp only [Function.comp_apply, pow_succ]
      ring
    rw [List.range_succ_eq_map, List.map_cons, List.map_map, hfun]
    simp

/-- C4: the retry wrapper re-raises immediately with no retry and no sleep
when the first invocation fails with a status in the non-retryable set
{400, 401, 403, 404}; when every invocation fails retryably, it performs
exactly maxRetries retries, the sleep before retry n being base times
backoff to the n (a strictly increasing sequence when the multiplier
exceeds one and the base is positive), and re-raises the last failure. -/
theorem retry_request_policy (behavior : Nat → ReqOutcome) (mr : Nat)
    (base backoff : ℚ) :
    (∀ st, behavior 0 = ReqOutcome.failure st → nonRetryableStatus st = true →
      retry_request behavior mr base backoff = (Except.error st, [])) ∧
    ((∀ k, k ≤ mr → ∃ st, behavior k = ReqOutcome.failure st ∧
        nonRetryableStatus st = false) →
      ∃ st, behavior mr = ReqOutcome.failure st ∧
        retry_request behavior mr base backoff =
          (Except.error st, (List.range mr).map (fun n => base * backoff ^ n)) ∧
        (0 < base → 1 < backoff →
          ((List.range mr).map (fun n => base * backoff ^ n)).Chain' (· < ·))) := by
  constructor
  · intro st h0 hnr
    exact retry_go_fail_nonretryable behavior backoff 0 mr base st h0 hnr
  · intro hall
    have hall' : ∀ k, k ≤ mr → ∃ st, behavior (0 + k) = ReqOutcome.failure st ∧
        nonRetryableStatus st = false := by
      intro k hk
      simpa using hall k hk
    obtain ⟨st, hst, heq⟩ := retry_go_all_fail behavior backoff mr 0 base hall'
    refine ⟨st, by simpa using hst, by simpa using heq, ?_⟩
    intro hb hm
    cases mr with
    | zero => simp
    | succ r =>
      rw [List.chain'_map, List.chain'_range_succ]
      intro m _
      have hp : (0 : ℚ) < backoff ^ m := pow_pos (lt_trans zero_lt_one hm) m
      have key : 0 < (base * backoff ^ m) * (backoff - 1) :=
        mul_pos (mul_pos hb hp) (by linarith)
      rw [pow_succ]
      nlinarith [key]

theorem retry_request_policy_witness :
    retry_request (fun _ => ReqOutcome.failure (some 404)) max_retries
      retry_delay retry_backoff = (Except.error (some 404), []) ∧
    (∃ st, (fun _ : Nat => ReqOutcome.failure (some 500)) max_retries =
        ReqOutcome.failure st ∧
      retry_request (fun _ => ReqOutcome.failure (some 500)) max_retries
        retry_delay retry_backoff =
        (Except.error st,
          (List.range max_retries).map (fun n => retry_delay * retry_backoff ^ n)) ∧
      (0 < retry_delay → 1 < retry_backoff →
        ((List.range max_retries).map
          (fun n => retry_delay * retry_backoff ^ n)).Chain' (· < ·))) ∧
    (List.range max_retries).map (fun n => retry_delay * retry_backoff ^ n) =
      [1, 2, 4] :=
  ⟨(retry_request_policy (fun _ => ReqOutcome.failure (some 404)) max_retries
      retry_delay retry_backoff).1 (some 404) rfl (by decide),
   (retry_request_policy (fun _ => ReqOutcome.failure (some 500)) max_retries
      retry_delay retry_backoff).2 (fun k _ => ⟨some 500, rfl, by decide⟩),
   by norm_num [List.range_succ, max_retries, retry_delay, retry_backoff]⟩

lemma sum_map_filter_le (l : List (Int × Int × Int)) (p : (Int × Int × Int) → Bool)
    (h : ∀ s ∈ l, 0 ≤ s.2.2) :
    ((l.filter p).map (fun s => s.2.2)).sum ≤ (l.map (fun s => s.2.2)).sum := by
  induction l with
  | nil => simp
  | cons a t ih =>
    have ha := h a (List.mem_cons_self a t)
    have ht : ∀ s ∈ t, 0 ≤ s.2.2 := fun s hs => h s (List.mem_cons_of_mem a hs)
    cases hp : p a with
    | true =>
      simp only [List.filter_cons, hp, if_true, List.map_cons, List.sum_cons]
      have := ih ht
      linarith
    | false =>
      simp only [List.filter_cons, hp, Bool.false_eq_true, if_false, List.map_cons,
        List.sum_cons]
      have := ih ht
      linarith

/-- Invariant of the in-memory stats store: every logged count is
non-negative and, for each user, the logged counts still present sum to at
most the user's all-time total. -/
def statsInv (st : MemoryStats) : Prop :=
  (∀ s ∈ st.submissions, 0 ≤ s.2.2) ∧
  ∀ u, ((st.submissions.filter (fun s => s.1 == u)).map (fun s => s.2.2)).sum ≤
    st.totals u

lemma statsInv_init : statsInv initStats := by
  constructor
  · intro s hs
    simp [initStats] at hs
  · intro u
    simp [initStats]

lemma statsInv_record (st : MemoryStats) (u t c : Int) (hc : 0 ≤ c)
    (h : statsInv st) : statsInv (record_submission st u t c) := by
  obtain ⟨hpos, hsum⟩ := h
  constructor
  · intro s hs
    simp only [record_submission, List.mem_filter, List.mem_append,
      List.mem_singleton] at hs
    rcases hs.1 with h1 | h1
    · exact hpos s h1
    · rw [h1]
      exact hc
  · intro v
    simp only [record_submission]
    have hcomm : (((st.submissions ++ [(u, t, c)]).filter
          (fun s => decide (t - 86400 < s.2.1))).filter (fun s => s.1 == v)) =
        (((st.submissions ++ [(u, t, c)]).filter
          (fun s => s.1 == v)).filter (fun s => decide (t - 86400 < s.2.1))) := by
      rw [List.filter_filter, List.filter_filter]
      exact List.filter_congr (fun a _ => Bool.and_comm _ _)
    rw [hcomm]
    have hnn : ∀ s ∈ (st.submissions ++ [(u, t, c)]).filter (fun s => s.1 == v),
        0 ≤ s.2.2 := by
      intro s hs
      have hs' := (List.mem_filter.mp hs).1
      rcases List.mem_append.mp hs' with h1 | h1
      · exact hpos s h1
      · rw [List.mem_singleton.mp h1]
        exact hc
    have hle := sum_map_filter_le _ (fun s => decide (t - 86400 < s.2.1)) hnn
    refine le_trans hle ?_
    rw [List.filter_append, List.map_append, List.sum_append]
    have hsing : ((([(u, t, c)] : List (Int × Int × Int)).filter
        (fun s => s.1 == v)).map (fun s => s.2.2)).sum = if v = u then c else 0 := by
      by_cases hv : v = u
      · subst hv
        simp
      · have hbe : ((u : Int) == v) = false := by
          simp only [beq_eq_false_iff_ne, ne_eq]
          exact fun h => hv h.symm
        simp [List.filter_cons, hbe, hv]
    rw [hsing]
    by_cases hv : v = u
    · subst hv
      have h0 := hsum v
      rw [if_pos rfl, if_pos rfl]
      linarith
    · rw [if_neg hv, if_neg hv, add_zero]
      exact hsum v

lemma statsInv_foldl : ∀ (ops : List (Int × Int × Int)) (st : MemoryStats),
    (∀ op ∈ ops, 0 ≤ op.2.2) → statsInv st →
    statsInv (ops.foldl (fun st op => record_submission st op.1 op.2.1 op.2.2) st) := by
  intro ops
  induction ops with
  | nil =>
    intro st _ hst
    exact hst
  | cons o t ih =>
    intro st h hst
    have ho := h o (List.mem_cons_self o t)
    have ht : ∀ op ∈ t, 0 ≤ op.2.2 := fun op hop => h op (List.mem_cons_of_mem o hop)
    exact ih _ ht (statsInv_record st o.1 o.2.1 o.2.2 ho hst)

/-- C10: after any sequence of record_submission operations with
non-negative counts, get_user_stats reports a 24-hour window count bounded
by the all-time total for every user and at every query time, because the
total counter is never pruned while the per-submission log only shrinks. -/
theorem stats_last24h_le_total (ops : List (Int × Int × Int))
    (h : ∀ op ∈ ops, 0 ≤ op.2.2) (u now : Int) :
    (get_user_stats (run_records ops) u now).2 ≤
      (get_user_stats (run_records ops) u now).1 := by
  obtain ⟨hpos, hsum⟩ := statsInv_foldl ops initStats h statsInv_init
  simp only [get_user_stats, run_records] at *
  have hsplit : ((ops.foldl (fun st op => record_submission st op.1 op.2.1 op.2.2)
        initStats).submissions.filter
        (fun s => s.1 == u && decide (now - 86400 < s.2.1))) =
      (((ops.foldl (fun st op => record_submission st op.1 op.2.1 op.2.2)
        initStats).submissions.filter (fun s => s.1 == u)).filter
        (fun s => decide (now - 86400 < s.2.1))) := by
    rw [List.filter_filter]
    exact List.filter_congr (fun a _ => (Bool.and_comm _ _).symm)
  rw [hsplit]
  have hnn : ∀ s ∈ (ops.foldl (fun st op => record_submission st op.1 op.2.1 op.2.2)
      initStats).submissions.filter (fun s => s.1 == u), 0 ≤ s.2.2 :=
    fun s hs => hpos s (List.mem_filter.mp hs).1
  exact le_trans (sum_map_filter_le _ _ hnn) (hsum u)

theorem stats_last24h_le_total_witness :
    (∀ op ∈ ([(1, 0, 2), (1, 50, 3)] : List (Int × Int × Int)), 0 ≤ op.2.2) ∧
    (get_user_stats (run_records ([(1, 0, 2), (1, 50, 3)] :
        List (Int × Int × Int))) 1 100).2 ≤
      (get_user_stats (run_records ([(1, 0, 2), (1, 50, 3)] :
        List (Int × Int × Int))) 1 100).1 :=
  ⟨by decide, stats_last24h_le_total _ (by decide) 1 100⟩

lemma takeHexRun_of_all : ∀ (l : List Char), l.all isHexDigitCI = true →
    takeHexRun l.length l = some l := by
  intro l
  induction l with
  | nil => intro _; rfl
  | cons c t ih =>
    intro h
    simp only [List.all_cons, Bool.and_eq_true] at h
    have hdef : takeHexRun (t.length + 1) (c :: t) =
        if isHexDigitCI c then (takeHexRun t.length t).map (fun r => c :: r)
        else none := rfl
    show takeHexRun (t.length + 1) (c :: t) = some (c :: t)
    rw [hdef, if_pos h.1, ih h.2]
    rfl

lemma take24Hex_self (h : List Char) (hlen : h.length = 24)
    (hhex : h.all isHexDigitCI = true) : take24Hex h = some h := by
  have hx := takeHexRun_of_all h hhex
  rw [hlen] at hx
  exact hx

lemma takeHexRun_sound : ∀ (n : Nat) (l r : List Char),
    takeHexRun n l = some r →
    r.length = n ∧ r.all isHexDigitCI = true ∧ r = l.take n := by
  intro n
  induction n with
  | zero =>
    intro l r h
    have hdef : takeHexRun 0 l = some [] := rfl
    rw [hdef] at h
    have hr : ([] : List Char) = r := Option.some.inj h
    subst hr
    exact ⟨rfl, rfl, rfl⟩
  | succ n ih =>
    intro l r h
    cases l with
    | nil =>
      have hdef : takeHexRun (n + 1) ([] : List Char) = none := rfl
      rw [hdef] at h
      exact absurd h (by simp)
    | cons c t =>
      have hdef : takeHexRun (n + 1) (c :: t) =
          if isHexDigitCI c then (takeHexRun n t).map (fun r => c :: r)
          else none := rfl
      rw [hdef] at h
      by_cases hc : isHexDigitCI c = true
      · rw [if_pos hc] at h
        cases htr : takeHexRun n t with
        | none =>
          rw [htr] at h
          exact absurd h (by simp)
        | some r0 =>
          rw [htr] at h
          have hr : c :: r0 = r := Option.some.inj h
          obtain ⟨h0len, h0all, h0take⟩ := ih t r0 htr
          subst hr
          refine ⟨by simp [h0len], by simp [List.all_cons, hc, h0all], ?_⟩
          rw [List.take_succ_cons, ← h0take]
      · rw [if_neg hc] at h
        exact absurd h (by simp)

lemma hexCI_toLower (c : Char) (hc : isHexDigitCI c = true) :
    isLowerHexDigit (Char.toLower c) = true := by
  have hmem : c ∈ lowerHexDigits ++ upperHexLetters := by
    rw [isHexDigitCI] at hc
    exact List.mem_of_elem_eq_true hc
  have hall : ((lowerHexDigits ++ upperHexLetters).all
      (fun d => isLowerHexDigit (Char.toLower d))) = true := by decide
  exact List.all_eq_true.mp hall c hmem

lemma all_map_toLower (w : List Char) (hw : w.all isHexDigitCI = true) :
    (w.map Char.toLower).all isLowerHexDigit = true := by
  rw [List.all_map]
  rw [List.all_eq_true] at hw ⊢
  intro c hc
  exact hexCI_toLower c (hw c hc)

lemma searchIdParam_cons_none (c : Char) (l : List Char)
    (hc : ¬(c = '?' ∨ c = '&')) : searchIdParam (c :: l) = searchIdParam l := by
  have hdef : searchIdParam (c :: l) =
      match idParamAt (c :: l) with
      | some r => some r
      | none => searchIdParam l := rfl
  have hp : idParamAt (c :: l) = none := by
    have hd : idParamAt (c :: l) =
        if c = '?' ∨ c = '&' then idTailAt l else none := rfl
    rw [hd, if_neg hc]
  rw [hdef, hp]

lemma searchIdParam_append (u l : List Char)
    (hu : ∀ c ∈ u, ¬(c = '?' ∨ c = '&')) :
    searchIdParam (u ++ l) = searchIdParam l := by
  induction u with
  | nil => rfl
  | cons c t ih =>
    rw [List.cons_append,
      searchIdParam_cons_none c _ (hu c (List.mem_cons_self c t))]
    exact ih (fun d hd => hu d (List.mem_cons_of_mem c hd))

lemma searchIdParam_none (l : List Char)
    (hl : ∀ c ∈ l, ¬(c = '?' ∨ c = '&')) : searchIdParam l = none := by
  induction l with
  | nil => rfl
  | cons c t ih =>
    rw [searchIdParam_cons_none c _ (hl c (List.mem_cons_self c t))]
    exact ih (fun d hd => hl d (List.mem_cons_of_mem c hd))

lemma searchIdParam_found (u h : List Char)
    (hu : ∀ c ∈ u, ¬(c = '?' ∨ c = '&')) (hlen : h.length = 24)
    (hhex : h.all isHexDigitCI = true) :
    searchIdParam (u ++ ('?' :: 'i' :: 'd' :: '=' :: h)) = some h := by
  rw [searchIdParam_append u _ hu]
  have hp : idParamAt ('?' :: 'i' :: 'd' :: '=' :: h) = some h := by
    have hd : idParamAt ('?' :: 'i' :: 'd' :: '=' :: h) =
        if ('?' : Char) = '?' ∨ ('?' : Char) = '&'
        then idTailAt ('i' :: 'd' :: '=' :: h) else none := rfl
    rw [hd, if_pos (Or.inl rfl)]
    have ht : idTailAt ('i' :: 'd' :: '=' :: h) =
        if ('i' : Char).toLower = 'i' ∧ ('d' : Char).toLower = 'd' ∧
          ('=' : Char) = '='
        then take24Hex h else none := rfl
    rw [ht, if_pos ⟨by decide, by decide, rfl⟩]
    exact take24Hex_self h hlen hhex
  have hdef : searchIdParam ('?' :: 'i' :: 'd' :: '=' :: h) =
      match idParamAt ('?' :: 'i' :: 'd' :: '=' :: h) with
      | some r => some r
      | none => searchIdParam ('i' :: 'd' :: '=' :: h) := rfl
  rw [hdef, hp]

lemma searchPathSeg_cons_ne (c : Char) (l : List Char) (hc : ¬c = '/') :
    searchPathSeg (c :: l) = searchPathSeg l := by
  have hdef : searchPathSeg (c :: l) =
      match pathSegAt (c :: l) with
      | some r => some r
      | none => searchPathSeg l := rfl
  have hp : pathSegAt (c :: l) = none := by
    have hd : pathSegAt (c :: l) =
        if c = '/' then
          (match take24Hex l with
           | some r => if pathSegEndOk (l.drop 24) then some r else none
           | none => none)
        else none := rfl
    rw [hd, if_neg hc]
  rw [hdef, hp]

lemma take24Hex_cons_nonhex (d : Char) (l : List Char)
    (hd : isHexDigitCI d = false) : take24Hex (d :: l) = none := by
  have h1 : take24Hex (d :: l) =
      if isHexDigitCI d then (takeHexRun 23 l).map (fun r => d :: r)
      else none := rfl
  rw [h1]
  simp [hd]

lemma searchPathSeg_slash_nonhex (d : Char) (l : List Char)
    (hd : isHexDigitCI d = false) :
    searchPathSeg ('/' :: d :: l) = searchPathSeg (d :: l) := by
  have hdef : searchPathSeg ('/' :: d :: l) =
      match pathSegAt ('/' :: d :: l) with
      | some r => some r
      | none => searchPathSeg (d :: l) := rfl
  have hp : pathSegAt ('/' :: d :: l) = none := by
    have h2 : pathSegAt ('/' :: d :: l) =
        match take24Hex (d :: l) with
        | some r => if pathSegEndOk ((d :: l).drop 24) then some r else none
        | none => none := rfl
    rw [h2, take24Hex_cons_nonhex d l hd]
  rw [hdef, hp]

lemma searchPathSeg_found (h : List Char) (hlen : h.length = 24)
    (hhex : h.all isHexDigitCI = true) : searchPathSeg ('/' :: h) = some h := by
  have htk := take24Hex_self h hlen hhex
  have hdrop : h.drop 24 = [] := by
    rw [← hlen]
    exact List.drop_length h
  have hp : pathSegAt ('/' :: h) = some h := by
    have h2 : pathSegAt ('/' :: h) =
        match take24Hex h with
        | some r => if pathSegEndOk (h.drop 24) then some r else none
        | none => none := rfl
    rw [h2, htk, hdrop]
    rfl
  have hdef : searchPathSeg ('/' :: h) =
      match pathSegAt ('/' :: h) with
      | some r => some r
      | none => searchPathSeg h := rfl
  rw [hdef, hp]

lemma bareMatch_true_of (h : List Char) (hlen : h.length = 24)
    (hhex : h.all isHexDigitCI = true) : bareMatch h = true := by
  have hdef : bareMatch h =
      match take24Hex h with
      | some _ => decide (h.drop 24 = [] ∨ h.drop 24 = ['\n'])
      | none => false := rfl
  have hdrop : h.drop 24 = [] := by
    rw [← hlen]
    exact List.drop_length h
  rw [hdef, take24Hex_self h hlen hhex]
  simp [hdrop]

lemma bareMatch_false_of_long (l : List Char) (hl : 25 < l.length) :
    bareMatch l = false := by
  have hdef : bareMatch l =
      match take24Hex l with
      | some _ => decide (l.drop 24 = [] ∨ l.drop 24 = ['\n'])
      | none => false := rfl
  rw [hdef]
  cases htk : take24Hex l with
  | none => rfl
  | some w =>
    have hlen : (l.drop 24).length = l.length - 24 := List.length_drop 24 l
    have h1 : l.drop 24 ≠ [] := by
      intro he
      rw [he] at hlen
      simp at hlen
      omega
    have h2 : l.drop 24 ≠ ['\n'] := by
      intro he
      rw [he] at hlen
      simp at hlen
      omega
    simp [h1, h2]

lemma idTailAt_sound (l r : List Char) (h : idTailAt l = some r) :
    r.length = 24 ∧ r.all isHexDigitCI = true := by
  rcases l with _ | ⟨c1, _ | ⟨c2, _ | ⟨c3, rest⟩⟩⟩
  · exact absurd h (by simp [idTailAt])
  · exact absurd h (by simp [idTailAt])
  · exact absurd h (by simp [idTailAt])
  · have hd : idTailAt (c1 :: c2 :: c3 :: rest) =
        if c1.toLower = 'i' ∧ c2.toLower = 'd' ∧ c3 = '='
        then take24Hex rest else none := rfl
    rw [hd] at h
    by_cases hc : c1.toLower = 'i' ∧ c2.toLower = 'd' ∧ c3 = '='
    · rw [if_pos hc] at h
      obtain ⟨h1, h2, _⟩ := takeHexRun_sound 24 rest r h
      exact ⟨h1, h2⟩
    · rw [if_neg hc] at h
      exact absurd h (by simp)

lemma searchIdParam_sound : ∀ (l r : List Char), searchIdParam l = some r →
    r.length = 24 ∧ r.all isHexDigitCI = true := by
  intro l
  induction l with
  | nil =>
    intro r h
    exact absurd h (by simp [searchIdParam])
  | cons c t ih =>
    intro r h
    have hdef : searchIdParam (c :: t) =
        match idParamAt (c :: t) with
        | some x => some x
        | none => searchIdParam t := rfl
    rw [hdef] at h
    cases hp : idParamAt (c :: t) with
    | some x =>
      rw [hp] at h
      have hx : x = r := Option.some.inj h
      subst hx
      have hd : idParamAt (c :: t) =
          if c = '?' ∨ c = '&' then idTailAt t else none := rfl
      rw [hd] at hp
      by_cases hc : c = '?' ∨ c = '&'
      · rw [if_pos hc] at hp
        exact idTailAt_sound t x hp
      · rw [if_neg hc] at hp
        exact absurd hp (by simp)
    | none =>
      rw [hp] at h
      exact ih r h

lemma pathSegAt_sound (l r : List Char) (h : pathSegAt l = some r) :
    r.length = 24 ∧ r.all isHexDigitCI = true := by
  cases l with
  | nil => exact absurd h (by simp [pathSegAt])
  | cons c t =>
    have hd : pathSegAt (c :: t) =
        if c = '/' then
          (match take24Hex t with
           | some x => if pathSegEndOk (t.drop 24) then some x else none
           | none => none)
        else none := rfl
    rw [hd] at h
    by_cases hc : c = '/'
    · rw [if_pos hc] at h
      cases htk : take24Hex t with
      | none =>
        rw [htk] at h
        exact absurd h (by simp)
      | some x =>
        rw [htk] at h
        dsimp only at h
        by_cases he : pathSegEndOk (t.drop 24) = true
        · rw [if_pos he] at h
          have hx : x = r := Option.some.inj h
          subst hx
          obtain ⟨h1, h2, _⟩ := takeHexRun_sound 24 t x htk
          exact ⟨h1, h2⟩
        · rw [if_neg he] at h
          exact absurd h (by simp)
    · rw [if_neg hc] at h
      exact absurd h (by simp)

lemma searchPathSeg_sound : ∀ (l r : List Char), searchPathSeg l = some r →
    r.length = 24 ∧ r.all isHexDigitCI = true := by
  intro l
  induction l with
  | nil =>
    intro r h
    exact absurd h (by simp [searchPathSeg])
  | cons c t ih =>
    intro r h
    have hdef : searchPathSeg (c :: t) =
        match pathSegAt (c :: t) with
        | some x => some x
        | none => searchPathSeg t := rfl
    rw [hdef] at h
    cases hp : pathSegAt (c :: t) with
    | some x =>
      rw [hp] at h
      have hx : x = r := Option.some.inj h
      subst hx
      exact pathSegAt_sound (c :: t) x hp
    | none =>
      rw [hp] at h
      exact ih r h

lemma searchHex24_sound : ∀ (l r : List Char), searchHex24 l = some r →
    r.length = 24 ∧ r.all isHexDigitCI = true := by
  intro l
  induction l with
  | nil =>
    intro r h
    exact absurd h (by simp [searchHex24])
  | cons c t ih =>
    intro r h
    have hdef : searchHex24 (c :: t) =
        match take24Hex (c :: t) with
        | some x => some x
        | none => searchHex24 t := rfl
    rw [hdef] at h
    cases htk : take24Hex (c :: t) with
    | some x =>
      rw [htk] at h
      have hx : x = r := Option.some.inj h
      subst hx
      obtain ⟨h1, h2, _⟩ := takeHexRun_sound 24 (c :: t) x htk
      exact ⟨h1, h2⟩
    | none =>
      rw [htk] at h
      exact ih r h

lemma captured_shape (w : List Char) (hlen : w.length = 24)
    (hall : w.all isHexDigitCI = true) :
    ((w.map Char.toLower).take 24).length = 24 ∧
    ((w.map Char.toLower).take 24).all isLowerHexDigit = true ∧
    ((w.map Char.toLower).drop 24 = [] ∨ (w.map Char.toLower).drop 24 = ['\n']) := by
  have hlm : (w.map Char.toLower).length = 24 := by simp [hlen]
  have htake : (w.map Char.toLower).take 24 = w.map Char.toLower := by
    rw [← hlm]
    exact List.take_length _
  have hdrop : (w.map Char.toLower).drop 24 = [] := by
    rw [← hlm]
    exact List.drop_length _
  exact ⟨by rw [htake, hlm], by rw [htake]; exact all_map_toLower w hall,
    Or.inl hdrop⟩

lemma extract_verification_id_def (l : List Char) :
    extract_verification_id l =
      if bareMatch l then some (l.map Char.toLower)
      else
        match searchIdParam l with
        | some r => some (r.map Char.toLower)
        | none =>
          match searchPathSeg l with
          | some r => some (r.map Char.toLower)
          | none =>
            match searchHex24 l with
            | some r => some (r.map Char.toLower)
            | none => none := rfl

/-- C9 amended: whenever the parser returns normally, the first 24
characters of the returned value are lowercase hex digits and the remainder
is empty or a single trailing newline; the newline case arises only from
the bare-token pattern, whose dollar anchor also matches just before a
final newline (so the value is not always exactly 24 characters). -/
theorem extract_id_shape (l r : List Char)
    (h : extract_verification_id l = some r) :
    (r.take 24).length = 24 ∧ (r.take 24).all isLowerHexDigit = true ∧
    (r.drop 24 = [] ∨ r.drop 24 = ['\n']) := by
  rw [extract_verification_id_def] at h
  by_cases hb : bareMatch l = true
  · rw [if_pos hb] at h
    have hr : l.map Char.toLower = r := Option.some.inj h
    have hdefb : bareMatch l =
        match take24Hex l with
        | some _ => decide (l.drop 24 = [] ∨ l.drop 24 = ['\n'])
        | none => false := rfl
    rw [hdefb] at hb
    cases htk : take24Hex l with
    | none =>
      rw [htk] at hb
      exact absurd hb (by simp)
    | some w =>
      rw [htk] at hb
      dsimp only at hb
      have hdrop : l.drop 24 = [] ∨ l.drop 24 = ['\n'] := of_decide_eq_true hb
      obtain ⟨hwlen, hwall, hwtake⟩ := takeHexRun_sound 24 l w htk
      subst hr
      refine ⟨?_, ?_, ?_⟩
      · rw [← List.map_take, ← hwtake]
        simp [hwlen]
      · rw [← List.map_take, ← hwtake]
        exact all_map_toLower w hwall
      · rcases hdrop with h1 | h1
        · left
          rw [← List.map_drop, h1]
          rfl
        · right
          rw [← List.map_drop, h1]
          rfl
  · rw [if_neg hb] at h
    cases h1 : searchIdParam l with
    | some w =>
      rw [h1] at h
      dsimp only at h
      have hr : w.map Char.toLower = r := Option.some.inj h
      obtain ⟨hwlen, hwall⟩ := searchIdParam_sound l w h1
      subst hr
      exact captured_shape w hwlen hwall
    | none =>
      rw [h1] at h
      dsimp only at h
      cases h2 : searchPathSeg l with
      | some w =>
        rw [h2] at h
        dsimp only at h
        have hr : w.map Char.toLower = r := Option.some.inj h
        obtain ⟨hwlen, hwall⟩ := searchPathSeg_sound l w h2
        subst hr
        exact captured_shape w hwlen hwall
      | none =>
        rw [h2] at h
        dsimp only at h
        cases h3 : searchHex24 l with
        | some w =>
          rw [h3] at h
          dsimp only at h
          have hr : w.map Char.toLower = r := Option.some.inj h
          obtain ⟨hwlen, hwall⟩ := searchHex24_sound l w h3
          subst hr
          exact captured_shape w hwlen hwall
        | none =>
          rw [h3] at h
          exact absurd h (by simp)

theorem extract_id_shape_witness :
    extract_verification_id sampleId = some sampleId ∧
    ((sampleId.take 24).length = 24 ∧
      (sampleId.take 24).all isLowerHexDigit = true ∧
      (sampleId.drop 24 = [] ∨ sampleId.drop 24 = ['\n'])) :=
  ⟨by decide, extract_id_shape sampleId sampleId (by decide)⟩

/-- C9 counterexample: a bare 24-hex token followed by a single newline is
accepted by the bare-token pattern (the dollar anchor of re.match matches
just before a trailing newline) and the parser returns the whole lowercased
input, a 25-character value that is not a 24-character lowercase hex
string. -/
theorem extract_id_newline_counterexample :
    extract_verification_id newlineId = some newlineId ∧
    newlineId.length = 25 := by
  decide

/-- C6: a valid 24-hex-character identifier in any letter case is recovered
lowercased, whether presented as a bare standalone token, as the value of
an id query parameter of a URL, or as the final path segment of a URL. -/
theorem extract_id_recovers (h : List Char) (hlen : h.length = 24)
    (hhex : h.all isHexDigitCI = true) :
    extract_verification_id h = some (h.map Char.toLower) ∧
    extract_verification_id (urlVerifyPart ++ ('?' :: 'i' :: 'd' :: '=' :: h)) =
      some (h.map Char.toLower) ∧
    extract_verification_id (urlHostPart ++ ('/' :: h)) =
      some (h.map Char.toLower) := by
  refine ⟨?_, ?_, ?_⟩
  · have hb := bareMatch_true_of h hlen hhex
    rw [extract_verification_id_def, if_pos hb]
  · have hlenQ : (urlVerifyPart ++ ('?' :: 'i' :: 'd' :: '=' :: h)).length = 47 := by
      rw [List.length_append]
      have h19 : urlVerifyPart.length = 19 := by decide
      simp [h19, hlen]
    have hb : bareMatch (urlVerifyPart ++ ('?' :: 'i' :: 'd' :: '=' :: h)) = false :=
      bareMatch_false_of_long _ (by rw [hlenQ]; norm_num)
    have hq : searchIdParam (urlVerifyPart ++ ('?' :: 'i' :: 'd' :: '=' :: h)) =
        some h :=
      searchIdParam_found urlVerifyPart h (by decide) hlen hhex
    rw [extract_verification_id_def, if_neg (by simp [hb]), hq]
  · have hlenP : (urlHostPart ++ ('/' :: h)).length = 37 := by
      rw [List.length_append]
      have h12 : urlHostPart.length = 12 := by decide
      simp [h12, hlen]
    have hbP : bareMatch (urlHostPart ++ ('/' :: h)) = false :=
      bareMatch_false_of_long _ (by rw [hlenP]; norm_num)
    have hnoq : searchIdParam (urlHostPart ++ ('/' :: h)) = none := by
      apply searchIdParam_none
      intro c hc
      rcases List.mem_append.mp hc with h1 | h1
      · have hu : ∀ c ∈ urlHostPart, ¬(c = '?' ∨ c = '&') := by decide
        exact hu c h1
      · rcases List.mem_cons.mp h1 with h2 | h2
        · subst h2
          decide
        · have hcx : isHexDigitCI c = true := List.all_eq_true.mp hhex c h2
          intro hor
          rcases hor with h3 | h3 <;> rw [h3] at hcx <;>
            exact absurd hcx (by decide)
    have hpath : searchPathSeg (urlHostPart ++ ('/' :: h)) = some h := by
      show searchPathSeg ('h' :: 't' :: 't' :: 'p' :: 's' :: ':' :: '/' :: '/' ::
        'h' :: 'o' :: 's' :: 't' :: '/' :: h) = some h
      rw [searchPathSeg_cons_ne 'h' _ (by decide)]
      rw [searchPathSeg_cons_ne 't' _ (by decide)]
      rw [searchPathSeg_cons_ne 't' _ (by decide)]
      rw [searchPathSeg_cons_ne 'p' _ (by decide)]
      rw [searchPathSeg_cons_ne 's' _ (by decide)]
      rw [searchPathSeg_cons_ne ':' _ (by decide)]
      rw [searchPathSeg_slash_nonhex '/' _ (by decide)]
      rw [searchPathSeg_slash_nonhex 'h' _ (by decide)]
      rw [searchPathSeg_cons_ne 'h' _ (by decide)]
      rw [searchPathSeg_cons_ne 'o' _ (by decide)]
      rw [searchPathSeg_cons_ne 's' _ (by decide)]
      rw [searchPathSeg_cons_ne 't' _ (by decide)]
      exact searchPathSeg_found h hlen hhex
    rw [extract_verification_id_def, if_neg (by simp [hbP]), hnoq, hpath]

theorem extract_id_recovers_witness :
    (sampleIdUpper.length = 24 ∧ sampleIdUpper.all isHexDigitCI = true) ∧
    (extract_verification_id sampleIdUpper =
        some (sampleIdUpper.map Char.toLower) ∧
      extract_verification_id
          (urlVerifyPart ++ ('?' :: 'i' :: 'd' :: '=' :: sampleIdUpper)) =
        some (sampleIdUpper.map Char.toLower) ∧
      extract_verification_id (urlHostPart ++ ('/' :: sampleIdUpper)) =
        some (sampleIdUpper.map Char.toLower)) :=
  ⟨⟨by decide, by decide⟩,
    extract_id_recovers sampleIdUpper (by decide) (by decide)⟩
